import Mathlib

/-!
Shallow embedding of the NYC Events Radar core (crawling, ingestion,
storage with a synchronized full-text index, and the query engine),
translated from the Python sources under `src/`, together with theorems
settling the specification claims about it.

Modelling conventions:
* SQLite rows become Lean structures; the events table is a `List EventRow`.
* Machine strings are Lean `String`s; Python `str.lower` is modelled with
  the ASCII `Char.toLower` (all lexicon keywords are ASCII).
* Fallible operations (batch parsing, crawler runs, HTTP attempts) are
  `Except` values; an uncaught Python exception is an `Except.error`
  propagating out of the translated function.
-/

namespace EventsRadar

/-- Lowercase a string character by character (model of Python `str.lower`;
the lexicon keywords are all ASCII, so the ASCII `Char.toLower` suffices). -/
def lowerStr (s : String) : String := String.mk (s.toList.map Char.toLower)

/-- Does `hay` start with `pat`? -/
def listStartsWith : List Char → List Char → Bool
  | _, [] => true
  | [], _ :: _ => false
  | h :: hs, p :: ps => h = p && listStartsWith hs ps

/-- Does `pat` occur contiguously inside `hay`? -/
def listOccurs (hay pat : List Char) : Bool :=
  match hay with
  | [] => listStartsWith [] pat
  | _ :: t => listStartsWith hay pat || listOccurs t pat

/-- Substring containment (model of Python `pat in hay`). -/
def containsSubstr (hay pat : String) : Bool :=
  listOccurs hay.toList pat.toList

/-- Trim leading and trailing whitespace (model of Python `str.strip()`). -/
def stripStr (s : String) : String :=
  String.mk (((s.toList.dropWhile Char.isWhitespace).reverse.dropWhile
    Char.isWhitespace).reverse)

/-- The borough lexicon `NYC_BOROUGHS` from `src/api/ingest.py`, in the
dict's iteration order (Python dicts preserve insertion order). -/
def NYC_BOROUGHS : List (String × String) :=
  [("manhattan", "Manhattan"), ("brooklyn", "Brooklyn"), ("queens", "Queens"),
   ("bronx", "Bronx"), ("the bronx", "Bronx"), ("staten island", "Staten Island")]

/-- Model of `extract_borough` from `src/api/ingest.py`: first lexicon
keyword occurring case-insensitively in the address wins; otherwise the
"new york" / ", ny " fallback maps to Manhattan; otherwise `none`.
A `none` or empty address (Python falsy) yields `none`. -/
def extract_borough (address : Option String) : Option String :=
  match address with
  | none => none
  | some a =>
    if a = "" then none
    else
      let addrLower := lowerStr a
      match NYC_BOROUGHS.find? (fun kv => containsSubstr addrLower kv.1) with
      | some kv => some kv.2
      | none =>
        if containsSubstr addrLower "new york" || containsSubstr addrLower ", ny " then
          some "Manhattan"
        else none

/-- Model of `check_is_free` from `src/api/ingest.py`. -/
def check_is_free (price : Option String) : Bool :=
  match price with
  | none => false
  | some p =>
    let cleaned := lowerStr (stripStr p)
    cleaned = "" || cleaned = "free" || cleaned = "$0" || cleaned = "$0.00" ||
      cleaned = "0" || cleaned = "0.00"

/-- A draft event record, the shape of `scrapers.models.Event` (pydantic).
Timestamps are their ISO-8601 string renderings (`isoformat()`), which is
what the ingestion code binds into SQL. `created_at`/`updated_at` default
to `None` in the pydantic model, hence `Option` here. -/
structure Draft where
  title : String
  description : Option String
  startTime : String
  endTime : Option String
  venue : String
  address : Option String
  category : String
  price : Option String
  url : Option String
  source : String
  sourceId : Option String
  imageUrl : Option String
  createdAt : Option String
  updatedAt : Option String
deriving DecidableEq, Repr

/-- A row of the `events` table from `src/api/database.py` (`init_db`).
`isFree` models the INTEGER 0/1 column; nullable TEXT columns are
`Option String`. -/
structure EventRow where
  id : Nat
  title : String
  description : Option String
  url : Option String
  venue : String
  address : Option String
  borough : Option String
  startTime : String
  endTime : Option String
  category : Option String
  source : String
  sourceId : Option String
  imageUrl : Option String
  price : Option String
  isFree : Bool
  createdAt : Option String
  updatedAt : Option String
deriving DecidableEq, Repr

/-- The natural key `(title, start_time, venue)` of a stored row. -/
def naturalKey (r : EventRow) : String × String × String :=
  (r.title, r.startTime, r.venue)

/-- The natural key a draft would be stored under. -/
def draftKey (d : Draft) : String × String × String :=
  (d.title, d.startTime, d.venue)

/-- The row the `INSERT` in `ingest_events` (src/api/ingest.py) produces for
a draft with no conflicting natural key. Note that `created_at` and
`updated_at` are bound to the draft's own (possibly `None`) values: the SQL
lists both columns explicitly, so the schema defaults do not apply. -/
def insertRow (nid : Nat) (d : Draft) : EventRow :=
  { id := nid, title := d.title, description := d.description, url := d.url
    venue := d.venue, address := d.address
    borough := extract_borough d.address, startTime := d.startTime
    endTime := d.endTime, category := some d.category, source := d.source
    sourceId := d.sourceId, imageUrl := d.imageUrl, price := d.price
    isFree := check_is_free d.price, createdAt := d.createdAt
    updatedAt := d.updatedAt }

/-- The `ON CONFLICT(title, start_time, venue) DO UPDATE` clause of
`ingest_events` applied to the conflicting row `r`: the listed columns are
overwritten with the excluded (new) values and `updated_at` is set to
`datetime('now')`, here the parameter `now`. All other columns (id, title,
start_time, venue, source, created_at) keep their stored values. -/
def applyConflictUpdate (now : String) (d : Draft) (r : EventRow) : EventRow :=
  { r with
    description := d.description, url := d.url, address := d.address
    borough := extract_borough d.address, endTime := d.endTime
    category := some d.category, sourceId := d.sourceId
    imageUrl := d.imageUrl, price := d.price
    isFree := check_is_free d.price, updatedAt := some now }

/-- One upsert statement of `ingest_events` against store `store`: if a row
with the draft's natural key exists the conflict clause updates it,
otherwise a fresh row with rowid `nid` is appended. -/
def upsertEvent (now : String) (nid : Nat) (store : List EventRow)
    (d : Draft) : List EventRow :=
  if store.any (fun r => naturalKey r = draftKey d) then
    store.map (fun r =>
      if naturalKey r = draftKey d then applyConflictUpdate now d r else r)
  else
    store ++ [insertRow nid d]

/-- Ingestion state: the events table plus the next fresh rowid. -/
def ingestDraft (now : String) (st : List EventRow × Nat) (d : Draft) :
    List EventRow × Nat :=
  if st.1.any (fun r => naturalKey r = draftKey d) then
    (upsertEvent now st.2 st.1 d, st.2)
  else
    (upsertEvent now st.2 st.1 d, st.2 + 1)

/-- The batch loop of `ingest_events`: batches are consumed in filename
order; reading/parsing a batch file may fail (`json.load` / `Event(**raw)`
raising), which the code does not catch, so the error propagates and —
because the single `commit` sits after the loop — none of the run's rows
are committed. On success, every draft of every batch is upserted and
counted. -/
def ingestGo (now : String) :
    List (Except String (List Draft)) → Nat → (List EventRow × Nat) →
    Except String (Nat × List EventRow)
  | [], count, st => Except.ok (count, st.1)
  | Except.error e :: _, _, _ => Except.error e
  | Except.ok ds :: rest, count, st =>
    ingestGo now rest (count + ds.length) (ds.foldl (ingestDraft now) st)

/-- Model of `ingest_events` (src/api/ingest.py): each element of
`batches` is the parse result of one JSON batch file, in sorted filename
order. Returns the count of processed drafts and the resulting table, or
the first uncaught error. -/
def ingest_events (now : String) (batches : List (Except String (List Draft))) :
    Except String (Nat × List EventRow) :=
  ingestGo now batches 0 ([], 1)

/-! ## Crawler layer (`src/scrapers/base.py`) -/

/-- An HTTP response as seen by `BaseScraper.fetch`; only the status code
matters to the retry logic (`raise_for_status`). -/
structure Resp where
  status : Nat
  body : String
deriving DecidableEq, Repr

/-- What one `client.get` attempt can produce: a response, or a
transport-level failure (`httpx.TransportError`). -/
def Attempt := Except String Resp

/-- `httpx` success statuses: `raise_for_status` passes exactly on 2xx. -/
def is2xx (n : Nat) : Bool := 200 ≤ n && n < 300

/-- What `fetch` observed for one attempt after `raise_for_status`:
either the response, or the caught exception (`HTTPStatusError` for a
non-2xx status, `TransportError` for a transport failure). -/
def attemptOutcome (a : Attempt) : Except String Resp :=
  match a with
  | Except.error m => Except.error m
  | Except.ok r => if is2xx r.status then Except.ok r else
      Except.error ("status " ++ toString r.status)

/-- `Except` values with decidably equal components compare decidably. -/
instance exceptDecEq {ε : Type u} {α : Type v} [DecidableEq ε]
    [DecidableEq α] : DecidableEq (Except ε α)
  | Except.error e, Except.error f =>
    if h : e = f then Decidable.isTrue (by rw [h])
    else Decidable.isFalse (by intro hh; cases hh; exact h rfl)
  | Except.error _, Except.ok _ => Decidable.isFalse (by intro h; cases h)
  | Except.ok _, Except.error _ => Decidable.isFalse (by intro h; cases h)
  | Except.ok a, Except.ok b =>
    if h : a = b then Decidable.isTrue (by rw [h])
    else Decidable.isFalse (by intro hh; cases hh; exact h rfl)

/-- The result of a `fetch` call: the returned response or the terminal
`RuntimeError` (chained from the last caught exception, `none` when no
attempt was made), the number of attempts made, and the list of backoff
waits slept between attempts. -/
structure FetchResult where
  result : Except (Option String) Resp
  attempts : Nat
  waits : List ℚ
deriving DecidableEq, Repr

/-- The retry loop of `BaseScraper.fetch` over the remaining attempt
numbers (`for attempt in range(1, max_retries + 1)`): `attempts i` is what
the `i`-th `client.get` (1-based) would produce. A successful attempt
returns the response; a caught exception at attempt `i < maxRetries`
sleeps `retryBackoff * i` seconds before the next attempt; after the loop
ends with only failures the terminal `RuntimeError` carries the last
caught exception (`none` when no attempt was made). The accumulators are
the attempts made so far, the backoff waits slept, and `last_exc`. -/
def fetchGo (attempts : Nat → Attempt) (maxRetries : Nat) (backoff : ℚ) :
    List Nat → Nat → List ℚ → Option String → FetchResult
  | [], made, waits, lastExc => ⟨Except.error lastExc, made, waits⟩
  | i :: rest, made, waits, _ =>
    match attemptOutcome (attempts i) with
    | Except.ok r => ⟨Except.ok r, made + 1, waits⟩
    | Except.error e =>
      if i < maxRetries then
        fetchGo attempts maxRetries backoff rest (made + 1)
          (waits ++ [backoff * i]) (some e)
      else
        fetchGo attempts maxRetries backoff rest (made + 1) waits (some e)

/-- Model of `BaseScraper.fetch`: attempts numbered `1, ..., maxRetries`. -/
def fetch (attempts : Nat → Attempt) (maxRetries : Nat) (backoff : ℚ) :
    FetchResult :=
  fetchGo attempts maxRetries backoff (List.range' 1 maxRetries) 0 [] none

/-- Model of `BaseScraper.run`: if `scrape()` raises, the exception
propagates and no output batch is written; on success the full draft list
is serialized as the output batch. The pair is (run outcome, batch file
written). -/
def runScraper (scrape : Except String (List Draft)) :
    Except String (List Draft) × Option (List Draft) :=
  match scrape with
  | Except.error e => (Except.error e, none)
  | Except.ok evs => (Except.ok evs, some evs)

/-- Model of `run_all` (src/scrapers/base.py): the selected crawlers'
runs, in order; each element is the outcome of `scraper.run()`. The loop
body `events = await scraper.run()` is not wrapped in any handler, so the
first raising run propagates out of `run_all`, discarding events already
collected and never running the remaining crawlers. -/
def runAllGo (acc : List Draft) :
    List (Except String (List Draft)) → Except String (List Draft)
  | [] => Except.ok acc
  | Except.error e :: _ => Except.error e
  | Except.ok evs :: rest => runAllGo (acc ++ evs) rest

/-- Entry point of the `run_all` model. -/
def run_all (runs : List (Except String (List Draft))) :
    Except String (List Draft) :=
  runAllGo [] runs

/-! ## Store and full-text index (`src/api/database.py`)

The `events_fts` FTS5 virtual table indexes `(title, description, venue)`
keyed by the table rowid. The triggers `events_ai` / `events_ad` /
`events_au` mirror every table mutation into the index inside the same
transaction; an update deletes the old entry and inserts the new one. -/

/-- One entry of the `events_fts` index. -/
structure FtsEntry where
  rowid : Nat
  title : String
  description : Option String
  venue : String
deriving DecidableEq, Repr

/-- The index entry the triggers derive from a table row. -/
def entryOf (r : EventRow) : FtsEntry :=
  ⟨r.id, r.title, r.description, r.venue⟩

/-- Insert one index entry (`INSERT INTO events_fts(rowid, ...)`). -/
def ftsInsertEntry (fts : List FtsEntry) (e : FtsEntry) : List FtsEntry :=
  fts ++ [e]

/-- Remove the index entry for a rowid
(`INSERT INTO events_fts(events_fts, rowid, ...) VALUES ('delete', ...)`). -/
def ftsDeleteEntry (fts : List FtsEntry) (i : Nat) : List FtsEntry :=
  fts.filter (fun e => e.rowid ≠ i)

/-- Combined database state: events table plus full-text index. -/
structure DbState where
  tbl : List EventRow
  fts : List FtsEntry
deriving DecidableEq, Repr

/-- A mutation of the events table. No SQL statement in this codebase
assigns the `id` column in an UPDATE, so `upd` keeps the row's id. -/
inductive DbOp where
  | ins (r : EventRow)
  | upd (i : Nat) (new : EventRow)
  | del (i : Nat)
deriving DecidableEq, Repr

/-- One table mutation together with the triggers that fire on it, all
within one transaction. An insert whose id collides with an existing row
violates the primary key, so the statement fails (`none`) and nothing
changes. An update or delete touching no row fires no trigger. -/
def applyOp (st : DbState) : DbOp → Option DbState
  | DbOp.ins r =>
    if st.tbl.any (fun x => x.id = r.id) then none
    else some ⟨st.tbl ++ [r], ftsInsertEntry st.fts (entryOf r)⟩
  | DbOp.upd i new =>
    if st.tbl.any (fun x => x.id = i) then
      some ⟨st.tbl.map (fun x => if x.id = i then { new with id := i } else x),
            ftsInsertEntry (ftsDeleteEntry st.fts i) (entryOf { new with id := i })⟩
    else some st
  | DbOp.del i =>
    some ⟨st.tbl.filter (fun x => x.id ≠ i), ftsDeleteEntry st.fts i⟩

/-- Run a sequence of mutations from a given state. -/
def runOpsFrom (st : DbState) : List DbOp → Option DbState
  | [] => some st
  | op :: rest =>
    match applyOp st op with
    | none => none
    | some st' => runOpsFrom st' rest

/-- Run a sequence of mutations from the freshly initialized (empty)
database. -/
def runOps (ops : List DbOp) : Option DbState :=
  runOpsFrom ⟨[], []⟩ ops

/-! ## Query engine (`src/api/main.py`, `list_events`) -/

/-- Lexicographic comparison of char lists; Lean `Char` order is by code
point, matching SQLite's binary collation on the UTF-8 ISO strings the
table stores. -/
def charListLe : List Char → List Char → Bool
  | [], _ => true
  | _ :: _, [] => false
  | a :: as, b :: bs =>
    if a < b then true else if b < a then false else charListLe as bs

/-- String comparison used for `ORDER BY` / date comparisons. -/
def strLe (a b : String) : Bool := charListLe a.toList b.toList

/-- SQLite `date(start_time)`: the date part of an ISO timestamp. -/
def datePart (s : String) : String :=
  String.mk (s.toList.takeWhile (fun c => c ≠ 'T'))

/-- Insert into a sorted list (stable insertion sort step). -/
def insertSorted (le : α → α → Bool) (x : α) : List α → List α
  | [] => [x]
  | y :: ys => if le x y then x :: y :: ys else y :: insertSorted le x ys

/-- Stable insertion sort modelling `ORDER BY e.start_time ASC`. -/
def sortByLe (le : α → α → Bool) (l : List α) : List α :=
  l.foldr (insertSorted le) []

/-- Python truthiness of an optional string parameter: `if q:` is taken
exactly when the value is present and non-empty. -/
def pyTruthy (o : Option String) : Bool :=
  match o with
  | none => false
  | some s => !(s = "")

/-- The filter parameters of `GET /api/events`. `q` is matched through the
full-text index; the model abstracts the FTS5 MATCH semantics as the
function argument `ftsMatch` below. -/
structure Filters where
  q : Option String
  category : Option String
  borough : Option String
  dateFrom : Option String
  dateTo : Option String
  isFreeQ : Option Bool
  source : Option String
deriving DecidableEq, Repr

/-- The conjunction of WHERE conditions `list_events` builds: a condition
is added for a string parameter only when it is truthy (present and
non-empty), for a date parameter when present, and for `is_free` when it
`is not None`. -/
def rowMatches (ftsMatch : String → EventRow → Bool) (f : Filters)
    (r : EventRow) : Bool :=
  (if pyTruthy f.q then ftsMatch (f.q.getD "") r else true) &&
  (if pyTruthy f.category then r.category = some (f.category.getD "") else true) &&
  (if pyTruthy f.borough then r.borough = some (f.borough.getD "") else true) &&
  (match f.dateFrom with
   | none => true
   | some dfrom => strLe dfrom (datePart r.startTime)) &&
  (match f.dateTo with
   | none => true
   | some dto => strLe (datePart r.startTime) dto) &&
  (match f.isFreeQ with
   | none => true
   | some b => r.isFree = b) &&
  (if pyTruthy f.source then r.source = f.source.getD "" else true)

/-- The response shape of `list_events`. -/
structure ListResult where
  events : List EventRow
  total : Nat
  page : Nat
  perPage : Nat
  pages : Nat
deriving DecidableEq, Repr

/-- The `pages` formula of `list_events`:
`max(1, (total + per_page - 1) // per_page)`. -/
def pagesFor (total perPage : Nat) : Nat :=
  max 1 ((total + perPage - 1) / perPage)

/-- Model of `list_events` (src/api/main.py). `page` and `per_page` are
declared `Query(1, ge=1)` and `Query(20, ge=1, le=100)`: FastAPI validates
them while parsing the request, before the handler body (and hence any SQL)
runs; out-of-range values are rejected as a 422 caller error, modelled as
`Except.error`. `total` is the `COUNT(*)` of the filtered rows, computed
before `LIMIT ? OFFSET ?` is applied. -/
def list_events (ftsMatch : String → EventRow → Bool) (store : List EventRow)
    (f : Filters) (page perPage : Int) : Except String ListResult :=
  if page < 1 ∨ perPage < 1 ∨ 100 < perPage then
    Except.error "validation error"
  else
    let matched := store.filter (rowMatches ftsMatch f)
    let total := matched.length
    let pp := perPage.toNat
    let sorted := sortByLe (fun a b => strLe a.startTime b.startTime) matched
    Except.ok
      { events := (sorted.drop ((page.toNat - 1) * pp)).take pp
        total := total
        page := page.toNat
        perPage := pp
        pages := pagesFor total pp }

/-! ## Example data used by witnesses and counterexamples -/

/-- The spec's end-to-end example draft: "Jazz Night" at the Blue Note,
priced "$20". -/
def dJazz20 : Draft :=
  { title := "Jazz Night", description := none
    startTime := "2026-02-14T20:00:00", endTime := none
    venue := "Blue Note", address := none, category := "music"
    price := some "$20", url := none, source := "donyc", sourceId := none
    imageUrl := none, createdAt := none, updatedAt := none }

/-- The second observation of the same natural key, priced "Free". -/
def dJazzFree : Draft := { dJazz20 with price := some "Free" }

/-! ## Claim theorems -/

/-- C7: `check_is_free` returns true exactly when the price, trimmed and
lowercased, is one of "", "free", "$0", "$0.00", "0", "0.00"; in
particular it is true for "FREE" and false for "$20", for
"Free admission", and for a null price. -/
theorem check_is_free_characterization :
    (∀ p : String,
      (check_is_free (some p) = true ↔
        (lowerStr (stripStr p) = "" ∨ lowerStr (stripStr p) = "free" ∨
         lowerStr (stripStr p) = "$0" ∨ lowerStr (stripStr p) = "$0.00" ∨
         lowerStr (stripStr p) = "0" ∨ lowerStr (stripStr p) = "0.00"))) ∧
    check_is_free none = false ∧
    check_is_free (some "FREE") = true ∧
    check_is_free (some "$20") = false ∧
    check_is_free (some "Free admission") = false := by
  refine ⟨fun p => ?_, rfl, by decide, by decide, by decide⟩
  simp only [check_is_free, Bool.or_eq_true, decide_eq_true_eq]
  tauto

/-- C6: `extract_borough` returns null for a null or empty address; when
some lexicon keyword occurs case-insensitively in the address it returns
the borough of an occurring keyword; when none occurs it returns Manhattan
if "new york" or ", ny " occurs (case-insensitively), and null otherwise. -/
theorem extract_borough_characterization :
    extract_borough none = none ∧
    extract_borough (some "") = none ∧
    (∀ s : String, s ≠ "" →
      ((∃ kv ∈ NYC_BOROUGHS, containsSubstr (lowerStr s) kv.1 = true) →
        ∃ kv ∈ NYC_BOROUGHS, containsSubstr (lowerStr s) kv.1 = true ∧
          extract_borough (some s) = some kv.2) ∧
      ((∀ kv ∈ NYC_BOROUGHS, containsSubstr (lowerStr s) kv.1 = false) →
        (containsSubstr (lowerStr s) "new york" = true ∨
         containsSubstr (lowerStr s) ", ny " = true) →
        extract_borough (some s) = some "Manhattan") ∧
      ((∀ kv ∈ NYC_BOROUGHS, containsSubstr (lowerStr s) kv.1 = false) →
        containsSubstr (lowerStr s) "new york" = false →
        containsSubstr (lowerStr s) ", ny " = false →
        extract_borough (some s) = none)) := by
  refine ⟨rfl, rfl, fun s hs => ?_⟩
  cases hfind : NYC_BOROUGHS.find? (fun kv => containsSubstr (lowerStr s) kv.1) with
  | some kv =>
    have hp : containsSubstr (lowerStr s) kv.1 = true := by
      have h := List.find?_some hfind
      simpa using h
    have hm : kv ∈ NYC_BOROUGHS := List.mem_of_find?_eq_some hfind
    have hev : extract_borough (some s) = some kv.2 := by
      simp [extract_borough, hs, hfind]
    exact ⟨fun _ => ⟨kv, hm, hp, hev⟩,
      fun hall _ => absurd hp (by simp [hall kv hm]),
      fun hall _ _ => absurd hp (by simp [hall kv hm])⟩
  | none =>
    have hnone := List.find?_eq_none.1 hfind
    refine ⟨fun hex => ?_, fun _ hor => ?_, fun _ hny hnys => ?_⟩
    · obtain ⟨kv, hm, hp⟩ := hex
      exact absurd hp (by simpa using hnone kv hm)
    · rcases hor with h | h <;> simp [extract_borough, hs, hfind, h]
    · simp [extract_borough, hs, hfind, hny, hnys]

/-- Witness for C6: the spec's Manhattan-default example, with every
hypothesis of the characterization discharged by evaluation. -/
theorem extract_borough_characterization_witness :
    extract_borough (some "10 Columbus Circle, New York, NY 10019") =
      some "Manhattan" :=
  (extract_borough_characterization.2.2 "10 Columbus Circle, New York, NY 10019"
    (by decide)).2.1 (by decide) (Or.inl (by decide))

/-- C5 (code bug): ingesting a draft with a novel natural key that carries
no created_at/updated_at stores NULL in both columns rather than the
ingestion time: the INSERT in `ingest_events` lists both columns and binds
the draft's `None`s, so the schema defaults `datetime('now')` never apply. -/
theorem insert_null_timestamps :
    upsertEvent "2026-03-01T12:00:00" 1 [] dJazz20 = [insertRow 1 dJazz20] ∧
    (insertRow 1 dJazz20).createdAt = none ∧
    (insertRow 1 dJazz20).updatedAt = none ∧
    (insertRow 1 dJazz20).createdAt ≠ some "2026-03-01T12:00:00" := by
  exact ⟨rfl, rfl, rfl, by decide⟩

/-- C3 counterexample: with a malformed first batch file followed by a
well-formed batch of one draft, `ingest_events` returns the propagated
error — it does not skip the bad batch and report the count 1 that the
good batch alone yields. -/
theorem ingest_counterexample :
    ingest_events "2026-03-01T12:00:00"
      [Except.error "malformed JSON", Except.ok [dJazz20]] =
      Except.error "malformed JSON" ∧
    ingest_events "2026-03-01T12:00:00" [Except.ok [dJazz20]] =
      Except.ok (1, [insertRow 1 dJazz20]) := by
  exact ⟨rfl, by decide⟩

/-- C3 amended: an unreadable or malformed batch file aborts the whole
ingestion run — the first batch error propagates unchanged regardless of
the batches after it (and the single commit after the loop means none of
the run's rows are committed); only a run whose batches all parse returns
a count, the total number of drafts across all batches. -/
theorem ingest_error_propagation :
    (∀ (now e : String) (post pre : List (Except String (List Draft))),
      (∀ b ∈ pre, b.isOk = true) →
      ingest_events now (pre ++ Except.error e :: post) = Except.error e) ∧
    (∀ (now : String) (batches : List (Except String (List Draft))),
      (∀ b ∈ batches, b.isOk = true) →
      (ingest_events now batches).toOption.map Prod.fst =
        some ((batches.map (fun b => (b.toOption.getD []).length)).sum)) := by
  have key1 : ∀ (now e : String) (post pre : List (Except String (List Draft)))
      (c : Nat) (st : List EventRow × Nat), (∀ b ∈ pre, b.isOk = true) →
      ingestGo now (pre ++ Except.error e :: post) c st = Except.error e := by
    intro now e post pre
    induction pre with
    | nil => intro c st _; rfl
    | cons b rest ih =>
      intro c st hok
      cases b with
      | error e' =>
        exact absurd (hok (Except.error e') (by simp))
          (by simp [Except.isOk, Except.toBool])
      | ok ds => exact ih _ _ (fun x hx => hok x (by simp [hx]))
  have key2 : ∀ (now : String) (batches : List (Except String (List Draft)))
      (c : Nat) (st : List EventRow × Nat), (∀ b ∈ batches, b.isOk = true) →
      (ingestGo now batches c st).toOption.map Prod.fst =
        some (c + (batches.map (fun b => (b.toOption.getD []).length)).sum) := by
    intro now batches
    induction batches with
    | nil => intro c st _; simp [ingestGo, Except.toOption]
    | cons b rest ih =>
      intro c st hok
      cases b with
      | error e' =>
        exact absurd (hok (Except.error e') (by simp))
          (by simp [Except.isOk, Except.toBool])
      | ok ds =>
        have h := ih (c + ds.length) (ds.foldl (ingestDraft now) st)
          (fun x hx => hok x (by simp [hx]))
        simpa [ingestGo, Nat.add_assoc] using h
  exact ⟨fun now e post pre hok => key1 now e post pre 0 ([], 1) hok,
    fun now batches hok => by simpa using key2 now batches 0 ([], 1) hok⟩

/-- Witness for C3's amended claim: both parts applied to concrete batch
lists, hypotheses discharged by evaluation. -/
theorem ingest_error_propagation_witness :
    ingest_events "T" ([Except.ok [dJazz20]] ++ Except.error "boom" :: []) =
      Except.error "boom" ∧
    (ingest_events "T" [Except.ok [dJazz20], Except.ok [dJazzFree]]).toOption.map
      Prod.fst = some 2 := by
  constructor
  · exact ingest_error_propagation.1 "T" "boom" [] [Except.ok [dJazz20]] (by decide)
  · have h := ingest_error_propagation.2 "T"
      [Except.ok [dJazz20], Except.ok [dJazzFree]] (by decide)
    simpa using h

/-- C4 counterexample: three selected crawlers — the first producing one
draft, the second failing, the third producing one draft — make `run_all`
propagate the failure: the first crawler's draft is discarded and the
third crawler never runs, instead of the successful runs' drafts being
returned. -/
theorem run_all_counterexample :
    run_all [Except.ok [dJazz20], Except.error "crawler boom",
      Except.ok [dJazzFree]] = Except.error "crawler boom" ∧
    run_all [Except.ok [dJazz20], Except.ok [dJazzFree]] =
      Except.ok [dJazz20, dJazzFree] := by
  exact ⟨rfl, rfl⟩

/-- C4 amended: `run_all` runs the selected crawlers sequentially and
stops at the first failing run: that failure propagates out of `run_all`
(reported, not swallowed), but drafts already collected are discarded and
the crawlers after the failing one never run; only when every selected
run succeeds are all produced drafts returned, concatenated in order. -/
theorem run_all_first_error :
    (∀ (e : String) (post pre : List (Except String (List Draft))),
      (∀ b ∈ pre, b.isOk = true) →
      run_all (pre ++ Except.error e :: post) = Except.error e) ∧
    (∀ runs : List (Except String (List Draft)),
      (∀ b ∈ runs, b.isOk = true) →
      run_all runs = Except.ok (runs.map (fun b => b.toOption.getD [])).flatten) := by
  have key1 : ∀ (e : String) (post pre : List (Except String (List Draft)))
      (acc : List Draft), (∀ b ∈ pre, b.isOk = true) →
      runAllGo acc (pre ++ Except.error e :: post) = Except.error e := by
    intro e post pre
    induction pre with
    | nil => intro acc _; rfl
    | cons b rest ih =>
      intro acc hok
      cases b with
      | error e' =>
        exact absurd (hok (Except.error e') (by simp))
          (by simp [Except.isOk, Except.toBool])
      | ok evs => exact ih _ (fun x hx => hok x (by simp [hx]))
  have key2 : ∀ (runs : List (Except String (List Draft))) (acc : List Draft),
      (∀ b ∈ runs, b.isOk = true) →
      runAllGo acc runs =
        Except.ok (acc ++ (runs.map (fun b => b.toOption.getD [])).flatten) := by
    intro runs
    induction runs with
    | nil => intro acc _; simp [runAllGo]
    | cons b rest ih =>
      intro acc hok
      cases b with
      | error e' =>
        exact absurd (hok (Except.error e') (by simp))
          (by simp [Except.isOk, Except.toBool])
      | ok evs =>
        have h := ih (acc ++ evs) (fun x hx => hok x (by simp [hx]))
        simpa [runAllGo, List.append_assoc] using h
  exact ⟨fun e post pre hok => key1 e post pre [] hok,
    fun runs hok => by simpa using key2 runs [] hok⟩

/-- Witness for C4's amended claim: both parts applied to concrete run
lists, hypotheses discharged by evaluation. -/
theorem run_all_first_error_witness :
    run_all ([Except.ok [dJazz20]] ++ Except.error "boom" :: []) =
      Except.error "boom" ∧
    run_all [Except.ok [dJazz20], Except.ok [dJazzFree]] =
      Except.ok ([[dJazz20], [dJazzFree]] : List (List Draft)).flatten := by
  constructor
  · exact run_all_first_error.1 "boom" [] [Except.ok [dJazz20]] (by decide)
  · have h := run_all_first_error.2 [Except.ok [dJazz20], Except.ok [dJazzFree]]
      (by decide)
    simpa using h

/-- Two filter settings whose WHERE conditions agree row by row give
identical `list_events` responses. -/
theorem list_events_ext {ftsMatch : String → EventRow → Bool}
    {store : List EventRow} {f g : Filters} {page perPage : Int}
    (hfg : ∀ r, rowMatches ftsMatch f r = rowMatches ftsMatch g r) :
    list_events ftsMatch store f page perPage =
      list_events ftsMatch store g page perPage := by
  have h : store.filter (rowMatches ftsMatch f) =
      store.filter (rowMatches ftsMatch g) :=
    List.filter_congr (fun x _ => hfg x)
  simp only [list_events, h]

/-- C10: calling `list_events` with the empty string for `q`, `category`,
`borough`, or `source` returns exactly the same result as calling it with
that parameter absent — Python's `if q:` treats `""` as falsy, so no WHERE
condition is added and rows whose category or source is the empty string
cannot be selected this way. -/
theorem empty_string_filter_noop :
    ∀ (ftsMatch : String → EventRow → Bool) (store : List EventRow)
      (q cat bor dfrom dto : Option String) (isf : Option Bool)
      (src : Option String) (page perPage : Int),
      list_events ftsMatch store ⟨some "", cat, bor, dfrom, dto, isf, src⟩
          page perPage =
        list_events ftsMatch store ⟨none, cat, bor, dfrom, dto, isf, src⟩
          page perPage ∧
      list_events ftsMatch store ⟨q, some "", bor, dfrom, dto, isf, src⟩
          page perPage =
        list_events ftsMatch store ⟨q, none, bor, dfrom, dto, isf, src⟩
          page perPage ∧
      list_events ftsMatch store ⟨q, cat, some "", dfrom, dto, isf, src⟩
          page perPage =
        list_events ftsMatch store ⟨q, cat, none, dfrom, dto, isf, src⟩
          page perPage ∧
      list_events ftsMatch store ⟨q, cat, bor, dfrom, dto, isf, some ""⟩
          page perPage =
        list_events ftsMatch store ⟨q, cat, bor, dfrom, dto, isf, none⟩
          page perPage := by
  intro ftsMatch store q cat bor dfrom dto isf src page perPage
  exact ⟨list_events_ext (fun r => by simp [rowMatches, pyTruthy]),
    list_events_ext (fun r => by simp [rowMatches, pyTruthy]),
    list_events_ext (fun r => by simp [rowMatches, pyTruthy]),
    list_events_ext (fun r => by simp [rowMatches, pyTruthy])⟩

/-- C8: `page` and `per_page` are validated before the query runs (out of
range is a caller error, not clamped); `total` counts the matching rows
before pagination; and `pages` is `max(1, ceil(total / per_page))` —
`⌈/⌉` is Nat ceiling division, so `pagesFor 45 20 = 3` and
`pagesFor 0 20 = 1`. -/
theorem list_events_pagination :
    (∀ (ftsMatch : String → EventRow → Bool) (store : List EventRow)
      (f : Filters) (page perPage : Int),
      ((page < 1 ∨ perPage < 1 ∨ 100 < perPage) →
        list_events ftsMatch store f page perPage =
          Except.error "validation error") ∧
      (1 ≤ page → 1 ≤ perPage → perPage ≤ 100 →
        (list_events ftsMatch store f page perPage).toOption.map
            ListResult.total =
          some (store.filter (rowMatches ftsMatch f)).length ∧
        (list_events ftsMatch store f page perPage).toOption.map
            ListResult.pages =
          some (max 1
            ((store.filter (rowMatches ftsMatch f)).length ⌈/⌉ perPage.toNat)))) ∧
    (∀ total perPage : Nat, pagesFor total perPage = max 1 (total ⌈/⌉ perPage)) ∧
    pagesFor 45 20 = 3 ∧ pagesFor 0 20 = 1 := by
  refine ⟨fun ftsMatch store f page perPage => ⟨fun h => ?_, fun h1 h2 h3 => ?_⟩,
    fun total perPage => rfl, by decide, by decide⟩
  · simp only [list_events, if_pos h]
  · have hc : ¬(page < 1 ∨ perPage < 1 ∨ 100 < perPage) := by omega
    simp only [list_events, if_neg hc]
    exact ⟨rfl, rfl⟩

/-- Witness for C8: the valid call (page 1, per_page 20) over the empty
store and the out-of-range call (page 0), hypotheses discharged
numerically. -/
theorem list_events_pagination_witness :
    list_events (fun _ _ => false) [] ⟨none, none, none, none, none, none, none⟩
      0 20 = Except.error "validation error" ∧
    (list_events (fun _ _ => false) []
        ⟨none, none, none, none, none, none, none⟩ 1 20).toOption.map
      ListResult.total = some 0 ∧
    (list_events (fun _ _ => false) []
        ⟨none, none, none, none, none, none, none⟩ 1 20).toOption.map
      ListResult.pages = some 1 := by
  have hbad := (list_events_pagination.1 (fun _ _ => false) []
    ⟨none, none, none, none, none, none, none⟩ 0 20).1 (Or.inl (by norm_num))
  have hgood := (list_events_pagination.1 (fun _ _ => false) []
    ⟨none, none, none, none, none, none, none⟩ 1 20).2
    (by norm_num) (by norm_num) (by norm_num)
  exact ⟨hbad, by simpa using hgood.1, by simpa using hgood.2⟩

/-- C9: with `max_retries = 3`, `fetch` makes at most 3 attempts, retrying
on a transport failure or a non-2xx status and sleeping
`retry_backoff * i` seconds before retry `i`; two failures followed by a
success return the successful response after waits `backoff*1, backoff*2`;
three failures produce the terminal error carrying the last underlying
failure, and a crawler run whose scrape raises writes no output batch. -/
theorem fetch_retry_spec :
    ∀ (attempts : Nat → Attempt) (backoff : ℚ),
      (fetch attempts 3 backoff).attempts ≤ 3 ∧
      (∀ (e1 e2 : String) (r : Resp),
        attemptOutcome (attempts 1) = Except.error e1 →
        attemptOutcome (attempts 2) = Except.error e2 →
        attemptOutcome (attempts 3) = Except.ok r →
        fetch attempts 3 backoff =
          ⟨Except.ok r, 3, [backoff * 1, backoff * 2]⟩) ∧
      (∀ e1 e2 e3 : String,
        attemptOutcome (attempts 1) = Except.error e1 →
        attemptOutcome (attempts 2) = Except.error e2 →
        attemptOutcome (attempts 3) = Except.error e3 →
        fetch attempts 3 backoff =
          ⟨Except.error (some e3), 3, [backoff * 1, backoff * 2]⟩) ∧
      (∀ scrapeErr : String,
        runScraper (Except.error scrapeErr) = (Except.error scrapeErr, none)) := by
  intro attempts backoff
  have hrange : List.range' 1 3 = [1, 2, 3] := rfl
  refine ⟨?_, fun e1 e2 r h1 h2 h3 => ?_, fun e1 e2 e3 h1 h2 h3 => ?_,
    fun scrapeErr => rfl⟩
  · cases h1 : attemptOutcome (attempts 1) with
    | ok r => simp [fetch, hrange, fetchGo, h1]
    | error e1 =>
      cases h2 : attemptOutcome (attempts 2) with
      | ok r => simp [fetch, hrange, fetchGo, h1, h2]
      | error e2 =>
        cases h3 : attemptOutcome (attempts 3) with
        | ok r => simp [fetch, hrange, fetchGo, h1, h2, h3]
        | error e3 => simp [fetch, hrange, fetchGo, h1, h2, h3]
  · simp [fetch, hrange, fetchGo, h1, h2, h3]
  · simp [fetch, hrange, fetchGo, h1, h2, h3]

/-- A request that fails twice with a transport error and succeeds on the
third attempt. -/
def attemptsThenOk : Nat → Attempt := fun i =>
  if i = 3 then Except.ok ⟨200, "payload"⟩ else Except.error "connection reset"

/-- A request that fails on every attempt. -/
def attemptsAllFail : Nat → Attempt := fun _ => Except.error "connection reset"

/-- Witness for C9: the fail-fail-succeed and fail-fail-fail schedules at
backoff 1, outcome hypotheses discharged by evaluation. -/
theorem fetch_retry_spec_witness :
    fetch attemptsThenOk 3 1 =
      ⟨Except.ok ⟨200, "payload"⟩, 3, [(1 : ℚ) * 1, (1 : ℚ) * 2]⟩ ∧
    fetch attemptsAllFail 3 1 =
      ⟨Except.error (some "connection reset"), 3, [(1 : ℚ) * 1, (1 : ℚ) * 2]⟩ ∧
    runScraper (Except.error "connection reset") =
      (Except.error "connection reset", none) := by
  refine ⟨?_, ?_, ?_⟩
  · exact (fetch_retry_spec attemptsThenOk 1).2.1 "connection reset"
      "connection reset" ⟨200, "payload"⟩ rfl rfl rfl
  · exact (fetch_retry_spec attemptsAllFail 1).2.2.1 "connection reset"
      "connection reset" "connection reset" rfl rfl rfl
  · exact (fetch_retry_spec attemptsAllFail 1).2.2.2 "connection reset"

/-- The conflict update never touches the natural-key columns. -/
theorem naturalKey_applyConflictUpdate (now : String) (d : Draft)
    (r : EventRow) : naturalKey (applyConflictUpdate now d r) = naturalKey r :=
  rfl

/-- In a store whose natural keys are unique, filtering for the key of a
member row yields exactly that row. -/
theorem filter_key_singleton :
    ∀ (l : List EventRow) (k : String × String × String) (r0 : EventRow),
      (l.map naturalKey).Nodup → r0 ∈ l → naturalKey r0 = k →
      l.filter (fun r => naturalKey r = k) = [r0] := by
  intro l
  induction l with
  | nil => intro k r0 _ hmem _; cases hmem
  | cons x xs ih =>
    intro k r0 hnd hmem hkey
    have hnd2 : naturalKey x ∉ xs.map naturalKey ∧
        (xs.map naturalKey).Nodup := by
      rw [List.map_cons, List.nodup_cons] at hnd
      exact hnd
    have hx : naturalKey x ∉ xs.map naturalKey := hnd2.1
    have hnd' : (xs.map naturalKey).Nodup := hnd2.2
    rcases List.mem_cons.1 hmem with hr | hr
    · subst hr
      have hnil : xs.filter (fun r => naturalKey r = k) = [] := by
        refine List.filter_eq_nil_iff.2 (fun a ha => ?_)
        simp only [decide_eq_true_eq]
        intro hak
        exact hx (by
          rw [hkey, ← hak]
          exact List.mem_map_of_mem naturalKey ha)
      simp [List.filter_cons, hkey, hnil]
    · have hxk : ¬(naturalKey x = k) := by
        intro hxe
        refine hx ?_
        rw [hxe, ← hkey]
        exact List.mem_map_of_mem naturalKey hr
      simp [List.filter_cons, hxk, ih k r0 hnd' hr hkey]

/-- Filtering for a key after a key-preserving conditional rewrite is the
rewrite of the filtered rows. -/
theorem filter_key_map_update (k : String × String × String)
    (u : EventRow → EventRow) (hu : ∀ r, naturalKey (u r) = naturalKey r) :
    ∀ l : List EventRow,
      (l.map (fun r => if naturalKey r = k then u r else r)).filter
          (fun r => naturalKey r = k) =
        (l.filter (fun r => naturalKey r = k)).map u := by
  intro l
  induction l with
  | nil => rfl
  | cons x xs ih =>
    by_cases hx : naturalKey x = k
    · simp [List.filter_cons, hx, hu x, ih]
    · simp [List.filter_cons, hx, ih]

/-- C1: ingesting a draft whose natural key already exists leaves exactly
one row for that key — the conflicting row with description, url, address,
borough, end_time, category, source_id, image_url, price and is_free
overwritten by the new draft's (derived) values and updated_at refreshed
to the ingestion time, while title, start_time, venue and created_at keep
their stored values — and the store size is unchanged. (The claim's
"$20 then Free" instance is the witness below.) -/
theorem upsert_conflict_spec :
    ∀ (store : List EventRow) (d : Draft) (now : String) (nid : Nat)
      (r0 : EventRow),
      (store.map naturalKey).Nodup → r0 ∈ store →
      naturalKey r0 = draftKey d →
      (upsertEvent now nid store d).length = store.length ∧
      (upsertEvent now nid store d).filter
          (fun r => naturalKey r = draftKey d) =
        [applyConflictUpdate now d r0] ∧
      (applyConflictUpdate now d r0).description = d.description ∧
      (applyConflictUpdate now d r0).url = d.url ∧
      (applyConflictUpdate now d r0).address = d.address ∧
      (applyConflictUpdate now d r0).borough = extract_borough d.address ∧
      (applyConflictUpdate now d r0).endTime = d.endTime ∧
      (applyConflictUpdate now d r0).category = some d.category ∧
      (applyConflictUpdate now d r0).sourceId = d.sourceId ∧
      (applyConflictUpdate now d r0).imageUrl = d.imageUrl ∧
      (applyConflictUpdate now d r0).price = d.price ∧
      (applyConflictUpdate now d r0).isFree = check_is_free d.price ∧
      (applyConflictUpdate now d r0).updatedAt = some now ∧
      (applyConflictUpdate now d r0).title = r0.title ∧
      (applyConflictUpdate now d r0).startTime = r0.startTime ∧
      (applyConflictUpdate now d r0).venue = r0.venue ∧
      (applyConflictUpdate now d r0).createdAt = r0.createdAt := by
  intro store d now nid r0 hnd hmem hkey
  have hany : store.any (fun r => naturalKey r = draftKey d) = true :=
    List.any_eq_true.2 ⟨r0, hmem, by simp [hkey]⟩
  have hup : upsertEvent now nid store d =
      store.map (fun r =>
        if naturalKey r = draftKey d then applyConflictUpdate now d r else r) := by
    simp [upsertEvent, hany]
  refine ⟨?_, ?_, rfl, rfl, rfl, rfl, rfl, rfl, rfl, rfl, rfl, rfl, rfl, rfl,
    rfl, rfl, rfl⟩
  · rw [hup, List.length_map]
  · rw [hup, filter_key_map_update (draftKey d) (applyConflictUpdate now d)
      (naturalKey_applyConflictUpdate now d) store,
      filter_key_singleton store (draftKey d) r0 hnd hmem hkey]
    rfl

/-- Witness for C1: the spec's "$20 then Free" scenario — ingest
`dJazz20` into an empty store, then ingest `dJazzFree` with the same
natural key; exactly one row remains, with price "Free", is_free true,
and created_at and the key columns untouched. -/
theorem upsert_conflict_spec_witness :
    (upsertEvent "2026-02-15T09:00:00" 2
        (upsertEvent "2026-02-14T12:00:00" 1 [] dJazz20) dJazzFree).length =
      (upsertEvent "2026-02-14T12:00:00" 1 [] dJazz20).length ∧
    (upsertEvent "2026-02-15T09:00:00" 2
        (upsertEvent "2026-02-14T12:00:00" 1 [] dJazz20) dJazzFree).filter
        (fun r => naturalKey r = draftKey dJazzFree) =
      [applyConflictUpdate "2026-02-15T09:00:00" dJazzFree
        (insertRow 1 dJazz20)] ∧
    (applyConflictUpdate "2026-02-15T09:00:00" dJazzFree
        (insertRow 1 dJazz20)).price = some "Free" ∧
    (applyConflictUpdate "2026-02-15T09:00:00" dJazzFree
        (insertRow 1 dJazz20)).isFree = true ∧
    (applyConflictUpdate "2026-02-15T09:00:00" dJazzFree
        (insertRow 1 dJazz20)).updatedAt = some "2026-02-15T09:00:00" ∧
    (applyConflictUpdate "2026-02-15T09:00:00" dJazzFree
        (insertRow 1 dJazz20)).createdAt = (insertRow 1 dJazz20).createdAt := by
  have h := upsert_conflict_spec (upsertEvent "2026-02-14T12:00:00" 1 [] dJazz20)
    dJazzFree "2026-02-15T09:00:00" 2 (insertRow 1 dJazz20)
    (by decide) (by decide) (by decide)
  exact ⟨h.1, h.2.1, by decide, by decide, by decide, by decide⟩

/-- Deleting a rowid from the mirrored index is mirroring the table with
that id removed: `entryOf` carries the id into the rowid. -/
theorem fts_filter_map (tbl : List EventRow) (i : Nat) :
    (tbl.map entryOf).filter (fun e => e.rowid ≠ i) =
      (tbl.filter (fun r => r.id ≠ i)).map entryOf := by
  rw [List.filter_map]
  rfl

/-- Rewriting the unique row with a given id is, up to permutation,
removing it and appending the replacement. -/
theorem map_update_perm :
    ∀ (tbl : List EventRow) (i : Nat) (new' : EventRow), new'.id = i →
      (tbl.map EventRow.id).Nodup → (∃ x ∈ tbl, x.id = i) →
      List.Perm (tbl.map (fun x => if x.id = i then new' else x))
        ((tbl.filter (fun x => x.id ≠ i)) ++ [new']) := by
  intro tbl
  induction tbl with
  | nil =>
    intro i new' _ _ hex
    obtain ⟨x, hx, _⟩ := hex
    cases hx
  | cons x xs ih =>
    intro i new' hid hnd hex
    have hnd2 : x.id ∉ xs.map EventRow.id ∧ (xs.map EventRow.id).Nodup := by
      rw [List.map_cons, List.nodup_cons] at hnd
      exact hnd
    by_cases hxi : x.id = i
    · have hxs : ∀ y ∈ xs, ¬(y.id = i) := by
        intro y hy hyi
        exact hnd2.1 (by
          rw [hxi, ← hyi]
          exact List.mem_map_of_mem EventRow.id hy)
      have hmapxs : xs.map (fun y => if y.id = i then new' else y) = xs := by
        refine (List.map_congr_left (fun y hy => ?_)).trans (List.map_id' xs)
        simp [hxs y hy]
      have hfilxs : xs.filter (fun y => y.id ≠ i) = xs := by
        refine List.filter_eq_self.2 (fun y hy => ?_)
        simp [hxs y hy]
      have hmapc : (x :: xs).map (fun y => if y.id = i then new' else y) =
          new' :: xs := by
        rw [List.map_cons, if_pos hxi, hmapxs]
      have hfilc : (x :: xs).filter (fun y => y.id ≠ i) = xs := by
        rw [List.filter_cons, if_neg (by simp [hxi])]
        exact hfilxs
      rw [hmapc, hfilc]
      exact (List.perm_append_singleton new' xs).symm
    · obtain ⟨w, hw, hwi⟩ := hex
      have hwxs : w ∈ xs := by
        rcases List.mem_cons.1 hw with hwx | hwx
        · exact absurd (hwx ▸ hwi) hxi
        · exact hwx
      have hperm := ih i new' hid hnd2.2 ⟨w, hwxs, hwi⟩
      have hmapc : (x :: xs).map (fun y => if y.id = i then new' else y) =
          x :: xs.map (fun y => if y.id = i then new' else y) := by
        rw [List.map_cons, if_neg hxi]
      have hfilc : (x :: xs).filter (fun y => y.id ≠ i) =
          x :: xs.filter (fun y => y.id ≠ i) := by
        rw [List.filter_cons, if_pos (by simp [hxi])]
      rw [hmapc, hfilc, List.cons_append]
      exact List.Perm.cons x hperm

/-- One mutation preserves id-uniqueness of the table and the index
mirroring the table. -/
theorem applyOp_invariant (st st' : DbState) (op : DbOp)
    (h : applyOp st op = some st')
    (hnd : (st.tbl.map EventRow.id).Nodup)
    (hmir : List.Perm st.fts (st.tbl.map entryOf)) :
    (st'.tbl.map EventRow.id).Nodup ∧
      List.Perm st'.fts (st'.tbl.map entryOf) := by
  cases op with
  | ins r =>
    by_cases hany : st.tbl.any (fun x => x.id = r.id) = true
    · rw [applyOp, if_pos hany] at h
      cases h
    · rw [applyOp, if_neg hany] at h
      have hnotin : r.id ∉ st.tbl.map EventRow.id := by
        intro hmem
        obtain ⟨x, hx, hxe⟩ := List.mem_map.1 hmem
        exact hany (List.any_eq_true.2 ⟨x, hx, by simp [hxe]⟩)
      cases h
      constructor
      · rw [List.map_append]
        exact List.nodup_append.2 ⟨hnd, List.nodup_singleton _,
          fun a ha hb => hnotin ((List.mem_singleton.1 hb) ▸ ha)⟩
      · rw [List.map_append]
        exact hmir.append_right [entryOf r]
  | upd i new =>
    by_cases hany : st.tbl.any (fun x => x.id = i) = true
    · rw [applyOp, if_pos hany] at h
      cases h
      have hids : (st.tbl.map (fun x =>
          if x.id = i then { new with id := i } else x)).map EventRow.id =
          st.tbl.map EventRow.id := by
        rw [List.map_map]
        refine List.map_congr_left (fun x _ => ?_)
        by_cases hx : x.id = i <;> simp [Function.comp, hx]
      obtain ⟨w, hw, hwi⟩ := List.any_eq_true.1 hany
      have hwi' : w.id = i := by simpa using hwi
      have hperm := map_update_perm st.tbl i { new with id := i } rfl hnd
        ⟨w, hw, hwi'⟩
      constructor
      · rw [hids]; exact hnd
      · have h1 : List.Perm
            (ftsInsertEntry (ftsDeleteEntry st.fts i)
              (entryOf { new with id := i }))
            ((st.tbl.filter (fun r => r.id ≠ i)).map entryOf ++
              [entryOf { new with id := i }]) := by
          rw [ftsInsertEntry, ftsDeleteEntry, ← fts_filter_map]
          exact (hmir.filter (fun e => e.rowid ≠ i)).append_right
            [entryOf { new with id := i }]
        have h2 : (st.tbl.filter (fun r : EventRow => r.id ≠ i)).map entryOf ++
              [entryOf { new with id := i }] =
            ((st.tbl.filter (fun r : EventRow => r.id ≠ i)) ++
              ([{ new with id := i }] : List EventRow)).map entryOf := by
          rw [List.map_append]
          rfl
        have h3 : List.Perm
            (((st.tbl.filter (fun r : EventRow => r.id ≠ i)) ++
              ([{ new with id := i }] : List EventRow)).map entryOf)
            ((st.tbl.map (fun x =>
              if x.id = i then { new with id := i } else x)).map entryOf) :=
          (hperm.map entryOf).symm
        rw [h2] at h1
        exact h1.trans h3
    · rw [applyOp, if_neg hany] at h
      cases h
      exact ⟨hnd, hmir⟩
  | del i =>
    rw [applyOp] at h
    cases h
    constructor
    · exact hnd.sublist ((List.filter_sublist st.tbl).map EventRow.id)
    · rw [ftsDeleteEntry, ← fts_filter_map]
      exact hmir.filter (fun e => e.rowid ≠ i)

/-- Running mutations from an id-unique, mirrored state lands in an
id-unique, mirrored state. -/
theorem runOpsFrom_invariant :
    ∀ (ops : List DbOp) (st0 st : DbState),
      (st0.tbl.map EventRow.id).Nodup →
      List.Perm st0.fts (st0.tbl.map entryOf) →
      runOpsFrom st0 ops = some st →
      (st.tbl.map EventRow.id).Nodup ∧
        List.Perm st.fts (st.tbl.map entryOf) := by
  intro ops
  induction ops with
  | nil =>
    intro st0 st hnd hmir h
    cases h
    exact ⟨hnd, hmir⟩
  | cons op rest ih =>
    intro st0 st hnd hmir h
    rw [runOpsFrom] at h
    cases happ : applyOp st0 op with
    | none => rw [happ] at h; cases h
    | some st1 =>
      rw [happ] at h
      have hstep := applyOp_invariant st0 st1 op happ hnd hmir
      exact ih st1 st hstep.1 hstep.2 h

/-- C2: after every sequence of inserts, updates and deletes from the
fresh database, the full-text index is — as a multiset — exactly the
per-row `(rowid, title, description, venue)` projection of the current
table (ids stay pairwise distinct, so: exactly one entry per row, none
for deleted rows, none with pre-update values); and each update's trigger
rewrites the index as delete-old-entry followed by insert-new-entry in
the same transaction. -/
theorem fts_index_invariant :
    (∀ (ops : List DbOp) (st : DbState), runOps ops = some st →
      (st.tbl.map EventRow.id).Nodup ∧
        List.Perm st.fts (st.tbl.map entryOf)) ∧
    (∀ (st : DbState) (i : Nat) (new : EventRow),
      st.tbl.any (fun x => x.id = i) = true →
      applyOp st (DbOp.upd i new) =
        some ⟨st.tbl.map (fun x => if x.id = i then { new with id := i } else x),
          ftsInsertEntry (ftsDeleteEntry st.fts i)
            (entryOf { new with id := i })⟩) := by
  constructor
  · intro ops st h
    exact runOpsFrom_invariant ops ⟨[], []⟩ st (by simp) (by simp) h
  · intro st i new hany
    rw [applyOp, if_pos hany]

/-- Witness for C2: insert two rows, update the first, delete the second;
the final index mirrors the final table, and the update step is the
delete-then-insert rewrite. -/
theorem fts_index_invariant_witness :
    runOps [DbOp.ins (insertRow 1 dJazz20), DbOp.ins (insertRow 2 dJazzFree),
        DbOp.upd 1 (insertRow 1 dJazzFree), DbOp.del 2] =
      some ⟨[insertRow 1 dJazzFree], [entryOf (insertRow 1 dJazzFree)]⟩ ∧
    List.Perm ([entryOf (insertRow 1 dJazzFree)])
      (([insertRow 1 dJazzFree]).map entryOf) ∧
    applyOp ⟨[insertRow 1 dJazz20], [entryOf (insertRow 1 dJazz20)]⟩
        (DbOp.upd 1 (insertRow 1 dJazzFree)) =
      some ⟨[insertRow 1 dJazz20].map (fun x =>
          if x.id = 1 then { insertRow 1 dJazzFree with id := 1 } else x),
        ftsInsertEntry (ftsDeleteEntry [entryOf (insertRow 1 dJazz20)] 1)
          (entryOf { insertRow 1 dJazzFree with id := 1 })⟩ := by
  have hrun : runOps [DbOp.ins (insertRow 1 dJazz20),
      DbOp.ins (insertRow 2 dJazzFree), DbOp.upd 1 (insertRow 1 dJazzFree),
      DbOp.del 2] =
      some ⟨[insertRow 1 dJazzFree], [entryOf (insertRow 1 dJazzFree)]⟩ := by
    decide
  refine ⟨hrun, ?_, ?_⟩
  · exact (fts_index_invariant.1 _ _ hrun).2
  · exact fts_index_invariant.2 ⟨[insertRow 1 dJazz20],
      [entryOf (insertRow 1 dJazz20)]⟩ 1 (insertRow 1 dJazzFree) (by decide)

end EventsRadar
